import Mathlib

/-!
Verification of the label-remapping core of `utils/nmn_datasets.py`
(neural-backed-decision-trees): the `Node` taxonomy-vertex construction,
the `IncludeLabelsDataset` / `ExcludeLabelsDataset` subset views, and the
`PathSanityDataset` ideal-projection weights.

Shallow embedding conventions:
* The XML hierarchy is embedded as the inductive `ETree`; each element
  optionally carries a `wnid` attribute and has an ordered child list.
* A Python `dict` keyed by flat-label indices is embedded as a function
  `Nat → Option Nat`.  All keys inserted by the construction loop are
  `wnids.index` results, hence `< wnids.length` (proved in
  `assignChildren_ok_bounds`), so `len(self.mapping)` equals the count of
  indices in `[0, K)` that are assigned (`mappedCount` below).
* Python exceptions (`AssertionError`, `ValueError`, `ZeroDivisionError`,
  `NameError`) are embedded as `Except String`.
* Python float arithmetic on small integer ratios is embedded as `ℚ`.
-/

set_option autoImplicit false

namespace NMN

/-- An XML element of the hierarchy file: an optional `wnid` attribute and an
ordered list of child elements.  A vertex is a leaf iff it has no children. -/
inductive ETree : Type where
  | node (wnid : Option String) (children : List ETree) : ETree

instance : Inhabited ETree := ⟨ETree.node none []⟩

/-- The `wnid` attribute of an element (`elem.get('wnid')`). -/
def ETree.wnid : ETree → Option String
  | .node w _ => w

/-- The ordered child list of an element (`elem.getchildren()`). -/
def ETree.children : ETree → List ETree
  | .node _ cs => cs

mutual

/-- Modelled from the spec: `get_leaves` from `utils/xmlutils.py` is not under
`src/`; the spec says a Node "recursively enumerate[s] ALL leaf descendants of
that child" and "a vertex is a 'leaf' iff it has zero children".  So
`get_leaves t` returns the leaf elements (zero-children elements) in the
subtree rooted at `t`, in document order, including `t` itself when `t` is a
leaf. -/
def get_leaves : ETree → List ETree
  | .node w [] => [ETree.node w []]
  | .node _ (c :: cs) => get_leavesList (c :: cs)

/-- Leaves of a forest, in document order (helper for `get_leaves`). -/
def get_leavesList : List ETree → List ETree
  | [] => []
  | t :: ts => get_leaves t ++ get_leavesList ts

end

/-- `wnids.index(leaf.get('wnid'))` (line 53): the first position of the leaf
element's wnid in the flat class list; `none` embeds the `ValueError` raised
when the leaf has no `wnid` attribute or its wnid is absent from the list. -/
def leafIndex (wnids : List String) (leaf : ETree) : Option Nat :=
  match leaf.wnid with
  | none => none
  | some s => List.findIdx? (fun w => w = s) wnids

/-- The inner loop of lines 51-54 for one child: for each leaf descendant,
resolve its wnid to `old_index` and record `old_index -> new_index`
(overwriting any earlier assignment, as Python dict assignment does). -/
def assignLeaves (wnids : List String) (newIndex : Nat) :
    List ETree → (Nat → Option Nat) → Except String (Nat → Option Nat)
  | [], m => .ok m
  | leaf :: rest, m =>
    match leafIndex wnids leaf with
    | none => .error "ValueError: wnid is not in list"
    | some old =>
        assignLeaves wnids newIndex rest
          (fun i => if i = old then some newIndex else m i)

/-- The outer loop of lines 50-54: `for new_index, child in
enumerate(children)`, assigning all leaf descendants of each child. -/
def assignChildren (wnids : List String) :
    Nat → List ETree → (Nat → Option Nat) → Except String (Nat → Option Nat)
  | _, [], m => .ok m
  | idx, c :: cs, m =>
    match assignLeaves wnids idx (get_leaves c) m with
    | .error e => .error e
    | .ok m' => assignChildren wnids (idx + 1) cs m'

/-- The partial mapping dict built by the child loop, starting empty. -/
def buildPartialMapping (wnids : List String) (children : List ETree) :
    Except String (Nat → Option Nat) :=
  assignChildren wnids 0 children (fun _ => none)

/-- The state of one constructed `Node` (lines 27-76).  `mapping` is the
final dict: total on `[0, K)` after the fill loop of lines 58-60, `none`
outside (a lookup there would raise `KeyError`). -/
structure NodeData : Type where
  wnid : String
  originalClasses : List String
  numOriginalClasses : Nat
  numChildren : Nat
  numClasses : Nat
  mapping : Nat → Option Nat
  new_to_old : List (List Nat)
  classes : List String
deriving Inhabited

/-- Lines 47-76 of `Node.__init__`, given the dict built by the child loop:
derive `num_classes`, finish the mapping, group it into `new_to_old` and join
the human-readable names. -/
def mkNodeData (vertex : ETree) (wnids classes : List String)
    (pm : Nat → Option Nat) : NodeData :=
  let K := wnids.length
  let n := vertex.children.length
  -- `len(self.mapping) < self.num_original_classes` (line 55): every key of
  -- the dict lies in `[0, K)` (`buildPartialMapping_ok_entries`), so the dict
  -- size is the count of assigned indices in `[0, K)`.
  let mappedCount := (List.range K).countP (fun i => (pm i).isSome)
  let numClasses := if mappedCount < K then n + 1 else n
  -- lines 58-60: unassigned old indices go to the "other" bucket `n`.
  let mapping : Nat → Option Nat :=
    fun i => if i < K then some ((pm i).getD n) else none
  -- lines 62-65: bucket `new` collects, in ascending order, the old indices
  -- mapped to `new` (the Python loop appends `old_index` in increasing order
  -- to `new_to_old[mapping[old_index]]`).
  let n2o := (List.range numClasses).map
    (fun new => (List.range K).filter (fun old => mapping old = some new))
  -- lines 67-72: joined class names, one per new class.
  let cls := if classes = [] then ([] : List String)
    else n2o.map (fun olds =>
      String.intercalate "," (olds.map (fun o => classes.getD o "")))
  { wnid := (vertex.wnid).getD ""
    originalClasses := classes
    numOriginalClasses := K
    numChildren := n
    numClasses := numClasses
    mapping := mapping
    new_to_old := n2o
    classes := cls }

/-- `Node.__init__` for an already-located vertex element (the
`tree.find('.//synset[@wnid=...]')` lookup is outside this embedding: the
claims quantify over the vertex).  Errors embed the `assert n > 0` of line 46
and the `ValueError` of `wnids.index` on line 53. -/
def buildNode (vertex : ETree) (wnids : List String) (classes : List String) :
    Except String NodeData :=
  if vertex.children.length = 0 then
    .error "AssertionError: Cannot build dataset for leaf node."
  else
    match buildPartialMapping wnids vertex.children with
    | .error e => .error e
    | .ok pm => .ok (mkNodeData vertex wnids classes pm)

/-- `Node.class_counts` (lines 78-81): sizes of the `new_to_old` buckets. -/
def NodeData.class_counts (nd : NodeData) : List Nat :=
  nd.new_to_old.map List.length

/-- `Node.probabilities` (lines 83-97): `reference = min(class_counts)`
(a `ValueError` on an empty list), then `min(1, reference / len(old_indices))`
per bucket; a bucket of size zero raises `ZeroDivisionError`. -/
def NodeData.probabilitiesE (nd : NodeData) : Except String (List ℚ) :=
  match nd.class_counts.min? with
  | none => .error "ValueError: min() arg is an empty sequence"
  | some reference =>
      nd.new_to_old.mapM (fun olds =>
        if olds.length = 0 then Except.error "ZeroDivisionError: division by zero"
        else Except.ok (min 1 ((reference : ℚ) / (olds.length : ℚ))))

/-- `Node.dim` (lines 141-143): sum of `num_classes` over a node list. -/
def NodeDim (nodes : List NodeData) : Nat :=
  (nodes.map (fun nd => nd.numClasses)).sum

/-! ## Dataset views -/

/-- The underlying sample source (external collaborator): ordered samples with
flat integer labels, and the ordered human-readable class-name list. -/
structure Source (α : Type) : Type where
  data : List (α × Nat)
  classes : List String

/-- `IncludeLabelsDataset` state after `__init__` (lines 334-349). -/
structure IncludeLabelsDataset (α : Type) : Type where
  dataset : Source α
  include_labels : List Nat
  num_samples : Nat
  new_to_old : List Nat

/-- `IncludeLabelsDataset.build_index_mapping` (lines 351-366): scan the
source in order keeping indices whose label is in the include collection
(the Python for-append loop builds exactly these filtered indices, in scan
order), then truncate to `num_samples` entries when `num_samples != 0`. -/
def build_index_mapping (α : Type) (dataset : Source α)
    (include_labels : List Nat) (num_samples : Nat) : List Nat :=
  let kept := (dataset.data.enum.filter
    (fun p => p.2.2 ∈ include_labels)).map (fun p => p.1)
  if num_samples ≠ 0 then kept.take num_samples else kept

/-- `IncludeLabelsDataset.__init__` (lines 342-349): store the fields, fail
on an empty include collection (`assert include_labels`, line 347 — the
construction-time error for an empty selection), then build the index list. -/
def mkIncludeLabelsDataset (α : Type) (dataset : Source α)
    (include_labels : List Nat) (num_samples : Nat) :
    Except String (IncludeLabelsDataset α) :=
  if include_labels = [] then
    .error "AssertionError: No labels are included in include_labels"
  else
    .ok { dataset := dataset
          include_labels := include_labels
          num_samples := num_samples
          new_to_old := build_index_mapping α dataset include_labels num_samples }

/-- `IncludeLabelsDataset.__getitem__` (lines 368-370).  Line 369 reads
`old = new_to_old[new_]`, but the name `new_to_old` is unbound in that scope
(there is no local, enclosing or module-level binding of that name; the
attribute is `self.new_to_old`), so every call raises `NameError` before
touching the dataset — independently of `new_` and of the stored state. -/
def IncludeLabelsDataset.getitem (α : Type) (_d : IncludeLabelsDataset α)
    (_new_ : Nat) : Except String (α × Nat) :=
  .error "NameError: name new_to_old is not defined"

/-- `IncludeLabelsDataset.__len__` (lines 372-373). -/
def IncludeLabelsDataset.len (α : Type) (d : IncludeLabelsDataset α) : Nat :=
  d.new_to_old.length

/-- `ExcludeLabelsDataset.__init__` (lines 415-423): complement construction,
`include_labels = set(range(k)) - set(exclude_labels)` with
`k = len(dataset.classes)`, then delegation to `IncludeLabelsDataset`.
The Python value is a set, used only for membership tests and the emptiness
assert; it is embedded as the ascending list of members. -/
def mkExcludeLabelsDataset (α : Type) (dataset : Source α)
    (exclude_labels : List Nat) (num_samples : Nat) :
    Except String (IncludeLabelsDataset α) :=
  let k := dataset.classes.length
  let include_labels := (List.range k).filter (fun i => i ∉ exclude_labels)
  mkIncludeLabelsDataset α dataset include_labels num_samples

/-- Observational equivalence of two view constructions: both fail, or both
succeed with the same length and the same `__getitem__` result at every
index.  This is the spec-side notion for the refinement claim about the
Exclude-Labels view. -/
def obsEquiv (α : Type) :
    Except String (IncludeLabelsDataset α) →
    Except String (IncludeLabelsDataset α) → Prop
  | .ok u, .ok v =>
      IncludeLabelsDataset.len α u = IncludeLabelsDataset.len α v ∧
      ∀ j, IncludeLabelsDataset.getitem α u j = IncludeLabelsDataset.getitem α v j
  | .error _, .error _ => True
  | _, _ => False

/-! ## Path-sanity ideal projection -/

/-- One row of the matrix built by `PathSanityDataset._get_node_weights`
(lines 262-271): row `new` of the `n x k` zero matrix `A`, with
`A[new_index, old_index] = 1` when the joined class name `cls` of bucket
`new` satisfies `',' not in cls and cls` (the "leaf" test of line 268) and
`old_index = node.original_classes.index(cls)`; the `.index` lookup raises
`ValueError` when the name is absent. -/
def nodeWeightRow (nd : NodeData) (k : Nat) (new : Nat) :
    Except String (List ℚ) :=
  -- `',' not in cls and cls` (line 268): the Python membership test on a
  -- string is membership of the character in the string's characters.
  if ',' ∉ (nd.classes.getD new "").data ∧ nd.classes.getD new "" ≠ "" then
    match List.findIdx? (fun s => s = nd.classes.getD new "") nd.originalClasses with
    | some old => .ok ((List.range k).map (fun j => if j = old then (1 : ℚ) else 0))
    | none => .error "ValueError: class name is not in list"
  else .ok (List.replicate k (0 : ℚ))

/-- `PathSanityDataset._get_node_weights` (lines 262-271): the `n x k`
matrix `A` with `n = node.num_classes`, `k = len(self.dataset.classes)`.
When `node.classes` is empty (no human-readable names supplied) the
`enumerate` loop body never runs and every row stays zero, which is what
`nodeWeightRow` yields for the empty joined name. -/
def getNodeWeights (nd : NodeData) (k : Nat) : Except String (List (List ℚ)) :=
  (List.range nd.numClasses).mapM (nodeWeightRow nd k)

/-- Matrix transpose of a rectangular row list with `k` columns
(`np.concatenate(...).T` on a `(total x k)` array yields `k x total`). -/
def matTranspose (k : Nat) (rows : List (List ℚ)) : List (List ℚ) :=
  (List.range k).map (fun j => rows.map (fun r => r.getD j 0))

/-- `PathSanityDataset.get_weights` (lines 273-279): stack every node's
`_get_node_weights` matrix along axis 0 — a `(dim(nodes) x k)` array — and
return its transpose. -/
def get_weights (nodes : List NodeData) (k : Nat) :
    Except String (List (List ℚ)) :=
  match nodes.mapM (fun nd => getNodeWeights nd k) with
  | .error e => .error e
  | .ok ws => .ok (matTranspose k ws.flatten)

/-! ## Concrete instances used to exercise the definitions -/

/-- A leaf element carrying a wnid. -/
def leafE (s : String) : ETree := ETree.node (some s) []

/-- A two-child vertex whose two children share the leaf wnid `x`:
child 0 owns leaf `x`; child 1 owns leaves `x` and `y`. -/
def tDup : ETree :=
  ETree.node (some "R")
    [ETree.node (some "A") [leafE "x"],
     ETree.node (some "B") [leafE "x", leafE "y"]]

/-- Flat class list for `tDup`. -/
def wnidsDup : List String := ["x", "y"]

/-- The Node built at `tDup` (total function on the success case; the
construction does succeed, see the C9 theorem). -/
def ndDup : NodeData :=
  match buildNode tDup wnidsDup [] with
  | .ok nd => nd
  | .error _ => default

/-- Inner vertex `I` with leaf children `a`, `b`. -/
def tInner : ETree := ETree.node (some "I") [leafE "a", leafE "b"]

/-- Root vertex `R` with children `I` and leaf `c`. -/
def tRoot : ETree := ETree.node (some "R") [tInner, leafE "c"]

/-- Flat class list for the `tRoot` hierarchy. -/
def wnidsEx : List String := ["a", "b", "c"]

/-- Human-readable class names for the `tRoot` hierarchy. -/
def classesEx : List String := ["ca", "cb", "cc"]

/-- The Node built at vertex `I` (its "other" bucket holds flat label 2). -/
def ndInner : NodeData :=
  match buildNode tInner wnidsEx classesEx with
  | .ok nd => nd
  | .error _ => default

/-- The Node built at vertex `R` (every flat label is covered). -/
def ndRoot : NodeData :=
  match buildNode tRoot wnidsEx classesEx with
  | .ok nd => nd
  | .error _ => default

/-- A four-sample source with labels `[0, 1, 0, 2]` over three classes. -/
def srcFour : Source Nat :=
  { data := [(100, 0), (101, 1), (102, 0), (103, 2)]
    classes := ["c0", "c1", "c2"] }

/-- A three-sample source over three classes, one sample per class. -/
def srcThree : Source Nat :=
  { data := [(200, 0), (201, 1), (202, 2)]
    classes := ["c0", "c1", "c2"] }

/-- The partial mapping dict built by the child loop at vertex `I`. -/
def pmInner : Nat → Option Nat :=
  match buildPartialMapping wnidsEx tInner.children with
  | .ok pm => pm
  | .error _ => fun _ => none

/-- Class names where the name of flat class 0 itself contains a comma. -/
def classesComma : List String := ["x,y", "cb", "cc"]

/-- The Node built at vertex `I` with the comma-bearing class names. -/
def ndComma : NodeData :=
  match buildNode tInner wnidsEx classesComma with
  | .ok nd => nd
  | .error _ => default

/-- The matrix returned by `get_weights` on the two-node hierarchy. -/
def wEx : List (List ℚ) :=
  match get_weights [ndInner, ndRoot] 3 with
  | .ok W => W
  | .error _ => []

/-! ## Lemmas about the Node construction -/

theorem leafIndex_lt {wnids : List String} {leaf : ETree} {old : Nat}
    (h : leafIndex wnids leaf = some old) : old < wnids.length := by
  unfold leafIndex at h
  cases hw : leaf.wnid with
  | none => rw [hw] at h; exact absurd h (by simp)
  | some s =>
      rw [hw] at h
      exact (List.findIdx?_eq_some_iff_findIdx_eq.mp h).1

theorem assignLeaves_ok_entries {wnids : List String} {newIdx : Nat} :
    ∀ (leaves : List ETree) (m m' : Nat → Option Nat),
      assignLeaves wnids newIdx leaves m = .ok m' →
      ∀ i v, m' i = some v → m i = some v ∨ (i < wnids.length ∧ v = newIdx)
  | [], m, m', h, i, v, hv => by
      unfold assignLeaves at h
      cases h
      exact Or.inl hv
  | leaf :: rest, m, m', h, i, v, hv => by
      unfold assignLeaves at h
      cases hidx : leafIndex wnids leaf with
      | none => rw [hidx] at h; exact absurd h (by simp)
      | some old =>
          rw [hidx] at h
          rcases assignLeaves_ok_entries rest _ m' h i v hv with hm | hb
          · by_cases hio : i = old
            · subst hio
              simp only [if_pos rfl] at hm
              exact Or.inr ⟨leafIndex_lt hidx, (Option.some.injEq _ _).mp hm.symm⟩
            · simp only [if_neg hio] at hm
              exact Or.inl hm
          · exact Or.inr hb

theorem assignChildren_ok_entries {wnids : List String} :
    ∀ (cs : List ETree) (idx : Nat) (m m' : Nat → Option Nat),
      assignChildren wnids idx cs m = .ok m' →
      ∀ i v, m' i = some v →
        m i = some v ∨ (i < wnids.length ∧ idx ≤ v ∧ v < idx + cs.length)
  | [], idx, m, m', h, i, v, hv => by
      unfold assignChildren at h
      cases h
      exact Or.inl hv
  | c :: cs, idx, m, m', h, i, v, hv => by
      unfold assignChildren at h
      cases h1 : assignLeaves wnids idx (get_leaves c) m with
      | error e => rw [h1] at h; simp at h
      | ok m1 =>
          rw [h1] at h
          rcases assignChildren_ok_entries cs (idx + 1) m1 m' h i v hv with hm1 | hb
          · rcases assignLeaves_ok_entries _ m m1 h1 i v hm1 with hm | ⟨hi, hvi⟩
            · exact Or.inl hm
            · exact Or.inr ⟨hi, by subst hvi; simp only [List.length_cons]; omega⟩
          · refine Or.inr ⟨hb.1, ?_⟩
            have h21 := hb.2.1
            have h22 := hb.2.2
            simp only [List.length_cons]
            omega

theorem buildPartialMapping_ok_entries {wnids : List String} {children : List ETree}
    {pm : Nat → Option Nat} (h : buildPartialMapping wnids children = .ok pm) :
    ∀ i v, pm i = some v → i < wnids.length ∧ v < children.length := by
  intro i v hv
  rcases assignChildren_ok_entries children 0 _ pm h i v hv with hm | hb
  · exact absurd hm (by simp)
  · exact ⟨hb.1, by have := hb.2.2; omega⟩

theorem assignLeaves_ok_of {wnids : List String} (newIdx : Nat) :
    ∀ (leaves : List ETree) (m : Nat → Option Nat),
      (∀ leaf ∈ leaves, ∃ s ∈ wnids, leaf.wnid = some s) →
      ∃ m', assignLeaves wnids newIdx leaves m = .ok m'
  | [], m, _ => ⟨m, rfl⟩
  | leaf :: rest, m, h => by
      rcases h leaf (by simp) with ⟨s, hs, hw⟩
      have hidx : (leafIndex wnids leaf).isSome := by
        unfold leafIndex
        rw [hw]
        rw [List.findIdx?_isSome, List.any_eq_true]
        exact ⟨s, hs, by simp⟩
      rcases Option.isSome_iff_exists.mp hidx with ⟨old, hold⟩
      rcases assignLeaves_ok_of newIdx rest
          (fun i => if i = old then some newIdx else m i)
          (fun l hl => h l (by simp [hl])) with ⟨m', hm'⟩
      refine ⟨m', ?_⟩
      unfold assignLeaves
      rw [hold]
      exact hm'

theorem assignChildren_ok_of {wnids : List String} :
    ∀ (cs : List ETree) (idx : Nat) (m : Nat → Option Nat),
      (∀ c ∈ cs, ∀ leaf ∈ get_leaves c, ∃ s ∈ wnids, leaf.wnid = some s) →
      ∃ m', assignChildren wnids idx cs m = .ok m'
  | [], idx, m, _ => ⟨m, rfl⟩
  | c :: cs, idx, m, h => by
      rcases assignLeaves_ok_of idx (get_leaves c) m
          (h c (by simp)) with ⟨m1, hm1⟩
      rcases assignChildren_ok_of cs (idx + 1) m1
          (fun c' hc' => h c' (by simp [hc'])) with ⟨m', hm'⟩
      refine ⟨m', ?_⟩
      unfold assignChildren
      rw [hm1]
      exact hm'

theorem buildNode_ok_inv {t : ETree} {wnids classes : List String} {nd : NodeData}
    (h : buildNode t wnids classes = .ok nd) :
    ∃ pm, buildPartialMapping wnids t.children = .ok pm ∧
      nd = mkNodeData t wnids classes pm ∧ t.children.length ≠ 0 := by
  unfold buildNode at h
  by_cases hz : t.children.length = 0
  · rw [if_pos hz] at h
    exact absurd h (by simp)
  · rw [if_neg hz] at h
    cases hpm : buildPartialMapping wnids t.children with
    | error e => rw [hpm] at h; simp at h
    | ok pm =>
        rw [hpm] at h
        simp only [Except.ok.injEq] at h
        exact ⟨pm, rfl, h.symm, hz⟩

theorem buildNode_ok_of {t : ETree} {wnids : List String} (classes : List String)
    (hch : t.children.length ≠ 0)
    (hleaves : ∀ c ∈ t.children, ∀ leaf ∈ get_leaves c, ∃ s ∈ wnids, leaf.wnid = some s) :
    ∃ pm, buildPartialMapping wnids t.children = .ok pm ∧
      buildNode t wnids classes = .ok (mkNodeData t wnids classes pm) := by
  rcases assignChildren_ok_of t.children 0 (fun _ => none) hleaves with ⟨pm, hpm⟩
  have hpm' : buildPartialMapping wnids t.children = .ok pm := hpm
  refine ⟨pm, hpm', ?_⟩
  unfold buildNode
  rw [if_neg hch, hpm']

theorem mkNodeData_numChildren (t : ETree) (wnids classes : List String)
    (pm : Nat → Option Nat) :
    (mkNodeData t wnids classes pm).numChildren = t.children.length := rfl

theorem mkNodeData_numOriginalClasses (t : ETree) (wnids classes : List String)
    (pm : Nat → Option Nat) :
    (mkNodeData t wnids classes pm).numOriginalClasses = wnids.length := rfl

theorem mkNodeData_originalClasses (t : ETree) (wnids classes : List String)
    (pm : Nat → Option Nat) :
    (mkNodeData t wnids classes pm).originalClasses = classes := rfl

theorem mkNodeData_numClasses (t : ETree) (wnids classes : List String)
    (pm : Nat → Option Nat) :
    (mkNodeData t wnids classes pm).numClasses =
      (if (List.range wnids.length).countP (fun i => (pm i).isSome) < wnids.length
        then t.children.length + 1 else t.children.length) := rfl

theorem mkNodeData_mapping (t : ETree) (wnids classes : List String)
    (pm : Nat → Option Nat) :
    (mkNodeData t wnids classes pm).mapping =
      (fun i => if i < wnids.length
        then some ((pm i).getD t.children.length) else none) := rfl

theorem mkNodeData_new_to_old (t : ETree) (wnids classes : List String)
    (pm : Nat → Option Nat) :
    (mkNodeData t wnids classes pm).new_to_old =
      (List.range (mkNodeData t wnids classes pm).numClasses).map
        (fun new => (List.range wnids.length).filter
          (fun old => (mkNodeData t wnids classes pm).mapping old = some new)) := rfl

theorem mkNodeData_classes (t : ETree) (wnids classes : List String)
    (pm : Nat → Option Nat) :
    (mkNodeData t wnids classes pm).classes =
      (if classes = [] then ([] : List String)
        else (mkNodeData t wnids classes pm).new_to_old.map (fun olds =>
          String.intercalate "," (olds.map (fun o => classes.getD o "")))) := rfl

theorem numChildren_le_numClasses (t : ETree) (wnids classes : List String)
    (pm : Nat → Option Nat) :
    t.children.length ≤ (mkNodeData t wnids classes pm).numClasses := by
  rw [mkNodeData_numClasses]
  split <;> omega

theorem countP_isSome_lt_of_none {pm : Nat → Option Nat} {K old : Nat}
    (hold : old < K) (hnone : pm old = none) :
    (List.range K).countP (fun i => (pm i).isSome) < K := by
  have hle : (List.range K).countP (fun i => (pm i).isSome) ≤ K := by
    have := List.countP_le_length (p := fun i => (pm i).isSome) (l := List.range K)
    simpa using this
  rcases Nat.lt_or_ge ((List.range K).countP (fun i => (pm i).isSome)) K with h | h
  · exact h
  · exfalso
    have heq : (List.range K).countP (fun i => (pm i).isSome) = (List.range K).length := by
      simp only [List.length_range]
      omega
    have := List.countP_eq_length.mp heq old (by simpa using hold)
    rw [hnone] at this
    simp at this

theorem mkNodeData_mapping_total_bounded {t : ETree} {wnids : List String}
    (classes : List String) {pm : Nat → Option Nat}
    (hpm : buildPartialMapping wnids t.children = .ok pm) :
    ∀ old, old < wnids.length →
      ∃ v, (mkNodeData t wnids classes pm).mapping old = some v ∧
        v < (mkNodeData t wnids classes pm).numClasses := by
  intro old hold
  rw [mkNodeData_mapping]
  cases hpmo : pm old with
  | some v =>
      refine ⟨v, by simp [hold, hpmo], ?_⟩
      have hv := (buildPartialMapping_ok_entries hpm old v hpmo).2
      exact Nat.lt_of_lt_of_le hv (numChildren_le_numClasses t wnids classes pm)
  | none =>
      refine ⟨t.children.length, by simp [hold, hpmo], ?_⟩
      rw [mkNodeData_numClasses,
        if_pos (countP_isSome_lt_of_none hold hpmo)]
      omega

/-! ## Claim theorems -/

/-- Claim C2: for every vertex with at least one child, provided every leaf
identifier reachable under the vertex's children occurs in the flat class
list `wnids`, the Node construction succeeds and its `mapping` is a total
function on the flat label space `[0, K)` (`K` = length of the flat class
list) with every mapped value in `[0, num_classes)`. -/
theorem claim_C2_node_mapping_total_bounded (t : ETree)
    (wnids classes : List String) (hch : t.children.length ≠ 0)
    (hleaves : ∀ c ∈ t.children, ∀ leaf ∈ get_leaves c, ∃ s ∈ wnids, leaf.wnid = some s) :
    ∃ nd, buildNode t wnids classes = .ok nd ∧
      ∀ old, old < wnids.length →
        ∃ v, nd.mapping old = some v ∧ v < nd.numClasses := by
  rcases buildNode_ok_of classes hch hleaves with ⟨pm, hpm, hbn⟩
  exact ⟨_, hbn, mkNodeData_mapping_total_bounded classes hpm⟩

/-- Witness for C2: the root vertex of the concrete hierarchy, whose leaf
wnids `a`, `b`, `c` all occur in the flat class list. -/
theorem claim_C2_witness :
    ∃ nd, buildNode tRoot wnidsEx classesEx = .ok nd ∧
      ∀ old, old < wnidsEx.length →
        ∃ v, nd.mapping old = some v ∧ v < nd.numClasses :=
  claim_C2_node_mapping_total_bounded tRoot wnidsEx classesEx
    (by decide) (by decide)

/-- Claim C3: for every constructed Node, if every flat label in `[0, K)` was
assigned by the child loop (the dict `pm`), `num_classes = num_children`;
otherwise `num_classes = num_children + 1` and some old index maps to the
"other" bucket value `num_children`. -/
theorem claim_C3_other_bucket (t : ETree) (wnids classes : List String)
    (pm : Nat → Option Nat) (nd : NodeData)
    (hpm : buildPartialMapping wnids t.children = .ok pm)
    (hok : buildNode t wnids classes = .ok nd) :
    ((∀ old, old < wnids.length → (pm old).isSome) →
      nd.numClasses = nd.numChildren) ∧
    ((¬ ∀ old, old < wnids.length → (pm old).isSome) →
      nd.numClasses = nd.numChildren + 1 ∧
      ∃ old, old < wnids.length ∧ nd.mapping old = some nd.numChildren) := by
  rcases buildNode_ok_inv hok with ⟨pm', hpm', hnd, _⟩
  rw [hpm'] at hpm
  have hpmeq : pm' = pm := by
    simpa using hpm
  subst hpmeq
  subst hnd
  constructor
  · intro hall
    rw [mkNodeData_numClasses, mkNodeData_numChildren]
    have hcnt : (List.range wnids.length).countP (fun i => (pm' i).isSome) =
        (List.range wnids.length).length := by
      rw [List.countP_eq_length]
      intro a ha
      simpa using hall a (List.mem_range.mp ha)
    rw [hcnt]
    simp
  · intro hnot
    push_neg at hnot
    rcases hnot with ⟨old, hold, hnone⟩
    have hnone' : pm' old = none := by
      cases h : pm' old with
      | none => rfl
      | some v => rw [h] at hnone; simp at hnone
    have hlt := countP_isSome_lt_of_none hold hnone'
    refine ⟨?_, old, hold, ?_⟩
    · rw [mkNodeData_numClasses, mkNodeData_numChildren, if_pos hlt]
    · rw [mkNodeData_mapping, mkNodeData_numChildren]
      simp [hold, hnone']

/-- Witness for C3 at vertex `I`: flat label 2 (`c`) is not assigned by the
child loop, so `num_classes = num_children + 1` and label 2 maps to the
"other" bucket. -/
theorem claim_C3_witness :
    ((∀ old, old < wnidsEx.length → (pmInner old).isSome) →
      ndInner.numClasses = ndInner.numChildren) ∧
    ((¬ ∀ old, old < wnidsEx.length → (pmInner old).isSome) →
      ndInner.numClasses = ndInner.numChildren + 1 ∧
      ∃ old, old < wnidsEx.length ∧ ndInner.mapping old = some ndInner.numChildren) :=
  claim_C3_other_bucket tInner wnidsEx classesEx pmInner ndInner rfl rfl

theorem sum_map_indicator_range (C j0 : Nat) (hj : j0 < C) :
    ((List.range C).map (fun j => if j0 = j then (1 : Nat) else 0)).sum = 1 := by
  induction C with
  | zero => omega
  | succ C ih =>
      rw [List.range_succ, List.map_append, List.sum_append]
      by_cases h : j0 = C
      · subst h
        have hz : ((List.range j0).map (fun j => if j0 = j then (1 : Nat) else 0)).sum = 0 := by
          apply List.sum_eq_zero
          intro x hx
          rcases List.mem_map.mp hx with ⟨j, hj', hx⟩
          have hlt : j < j0 := List.mem_range.mp hj'
          rw [if_neg (by omega)] at hx
          exact hx.symm
        simp [hz]
      · have hj0 : j0 < C := by omega
        simp [ih hj0, h]

theorem countP_fiber_sum (f : Nat → Option Nat) (C : Nat) :
    ∀ l : List Nat, (∀ o ∈ l, ∃ j, j < C ∧ f o = some j) →
      ((List.range C).map (fun j => l.countP (fun o => f o = some j))).sum = l.length
  | [], _ => by simp
  | o :: l, h => by
      rcases h o (by simp) with ⟨j0, hj0, hfo⟩
      have hrec := countP_fiber_sum f C l (fun o' ho' => h o' (by simp [ho']))
      have hsplit : ((List.range C).map
          (fun j => (o :: l).countP (fun o' => f o' = some j))).sum =
          ((List.range C).map (fun j =>
            l.countP (fun o' => f o' = some j) + if j0 = j then 1 else 0)).sum := by
        congr 1
        apply List.map_congr_left
        intro j _
        rw [List.countP_cons]
        congr 1
        by_cases hjj : j0 = j
        · subst hjj
          simp [hfo]
        · have : ¬ (f o = some j) := by
            rw [hfo]
            simp
            omega
          simp [this, hjj]
      rw [hsplit, List.sum_map_add, hrec, sum_map_indicator_range C j0 hj0]
      simp

theorem mkNodeData_mem_new_to_old (t : ETree) (wnids classes : List String)
    (pm : Nat → Option Nat) (new old : Nat) :
    old ∈ (mkNodeData t wnids classes pm).new_to_old.getD new [] ↔
      new < (mkNodeData t wnids classes pm).numClasses ∧ old < wnids.length ∧
        (mkNodeData t wnids classes pm).mapping old = some new := by
  rw [mkNodeData_new_to_old]
  by_cases hnew : new < (mkNodeData t wnids classes pm).numClasses
  · rw [List.getD_eq_getElem?_getD, List.getElem?_map, List.getElem?_range hnew]
    simp only [Option.map_some', Option.getD_some]
    rw [List.mem_filter]
    simp only [List.mem_range, decide_eq_true_eq]
    tauto
  · rw [List.getD_eq_getElem?_getD, List.getElem?_map]
    rw [List.getElem?_eq_none (by simpa using Nat.le_of_not_lt hnew)]
    simp only [Option.map_none', Option.getD_none]
    simp [hnew]

/-- Claim C4: for every constructed Node, `new_to_old` is the exact inverse
grouping of `mapping` (members of bucket `new` map to `new`; every old index
in `[0, K)` lies in exactly one bucket), and the class counts sum to `K`. -/
theorem claim_C4_new_to_old_inverse (t : ETree) (wnids classes : List String)
    (nd : NodeData) (hok : buildNode t wnids classes = .ok nd) :
    (∀ new old, old ∈ nd.new_to_old.getD new [] → nd.mapping old = some new) ∧
    (∀ old, old < nd.numOriginalClasses →
      ∃! new, old ∈ nd.new_to_old.getD new []) ∧
    nd.class_counts.sum = nd.numOriginalClasses := by
  rcases buildNode_ok_inv hok with ⟨pm, hpm, hnd, hch⟩
  subst hnd
  refine ⟨?_, ?_, ?_⟩
  · intro new old hmem
    exact ((mkNodeData_mem_new_to_old t wnids classes pm new old).mp hmem).2.2
  · rw [mkNodeData_numOriginalClasses]
    intro old hold
    rcases mkNodeData_mapping_total_bounded classes hpm old hold
      with ⟨v, hv, hvlt⟩
    refine ⟨v, (mkNodeData_mem_new_to_old t wnids classes pm v old).mpr
      ⟨hvlt, hold, hv⟩, ?_⟩
    intro y hy
    have hm := ((mkNodeData_mem_new_to_old t wnids classes pm y old).mp hy).2.2
    exact Option.some.inj (hm.symm.trans hv)
  · rw [mkNodeData_numOriginalClasses]
    show ((mkNodeData t wnids classes pm).new_to_old.map List.length).sum = wnids.length
    rw [mkNodeData_new_to_old, List.map_map]
    have hconv : (List.range (mkNodeData t wnids classes pm).numClasses).map
        (List.length ∘ fun new => (List.range wnids.length).filter
          (fun old => (mkNodeData t wnids classes pm).mapping old = some new)) =
        (List.range (mkNodeData t wnids classes pm).numClasses).map
          (fun j => (List.range wnids.length).countP
            (fun o => (mkNodeData t wnids classes pm).mapping o = some j)) := by
      apply List.map_congr_left
      intro j _
      simp [Function.comp, List.countP_eq_length_filter]
    rw [hconv, countP_fiber_sum _ _ _ ?_]
    · simp
    · intro o ho
      rcases mkNodeData_mapping_total_bounded classes hpm o
        (List.mem_range.mp ho) with ⟨v, hv, hvlt⟩
      exact ⟨v, hvlt, hv⟩

/-- Witness for C4 at the root Node of the concrete hierarchy. -/
theorem claim_C4_witness :
    (∀ new old, old ∈ ndRoot.new_to_old.getD new [] →
      ndRoot.mapping old = some new) ∧
    (∀ old, old < ndRoot.numOriginalClasses →
      ∃! new, old ∈ ndRoot.new_to_old.getD new []) ∧
    ndRoot.class_counts.sum = ndRoot.numOriginalClasses :=
  claim_C4_new_to_old_inverse tRoot wnidsEx classesEx ndRoot rfl

theorem mapM_ok_of_forall {β γ : Type} (f : β → Except String γ) (g : β → γ) :
    ∀ L : List β, (∀ b ∈ L, f b = .ok (g b)) → L.mapM f = .ok (L.map g)
  | [], _ => rfl
  | b :: L, h => by
      rw [List.mapM_cons, h b (by simp),
        mapM_ok_of_forall f g L (fun b' hb' => h b' (by simp [hb']))]
      rfl

theorem mapM_error_of_exists {β γ : Type} (f : β → Except String γ) :
    ∀ L : List β, (∃ b ∈ L, ∃ e, f b = .error e) →
      ∃ e, L.mapM f = .error e
  | [], h => by simp at h
  | b :: L, h => by
      cases hfb : f b with
      | error e =>
          refine ⟨e, ?_⟩
          rw [List.mapM_cons, hfb]
          rfl
      | ok y =>
          have hL : ∃ b' ∈ L, ∃ e, f b' = .error e := by
            rcases h with ⟨b', hb', e, he⟩
            rcases List.mem_cons.mp hb' with hb | hb
            · subst hb
              rw [hfb] at he
              simp at he
            · exact ⟨b', hb, e, he⟩
          rcases mapM_error_of_exists f L hL with ⟨e, he⟩
          refine ⟨e, ?_⟩
          rw [List.mapM_cons, hfb, he]
          rfl

theorem getD_map_lt {β γ : Type} (g : β → γ) (L : List β) (i : Nat)
    (d : γ) (db : β) (hi : i < L.length) :
    (L.map g).getD i d = g (L.getD i db) := by
  rw [List.getD_eq_getElem?_getD, List.getElem?_map, List.getElem?_eq_getElem hi,
    List.getD_eq_getElem?_getD, List.getElem?_eq_getElem hi]
  rfl

theorem mkNodeData_new_to_old_length (t : ETree) (wnids classes : List String)
    (pm : Nat → Option Nat) :
    (mkNodeData t wnids classes pm).new_to_old.length =
      (mkNodeData t wnids classes pm).numClasses := by
  rw [mkNodeData_new_to_old]
  simp

/-- Claim C5: for every constructed Node whose class counts are all positive,
`probabilities` succeeds; its `i`-th entry equals
`min(1, min(class_counts) / class_counts[i])`; every entry lies in `(0, 1]`;
and every class achieving the minimal count has probability exactly 1. -/
theorem claim_C5_probabilities (t : ETree) (wnids classes : List String)
    (nd : NodeData) (hok : buildNode t wnids classes = .ok nd)
    (hpos : ∀ c ∈ nd.class_counts, 0 < c) (i : Nat) (hi : i < nd.numClasses) :
    ∃ r ps, nd.class_counts.min? = some r ∧ nd.probabilitiesE = .ok ps ∧
      ps.getD i 0 = min 1 ((r : ℚ) / (nd.class_counts.getD i 0 : ℚ)) ∧
      (∀ p ∈ ps, 0 < p ∧ p ≤ 1) ∧
      (nd.class_counts.getD i 0 = r → ps.getD i 0 = 1) := by
  rcases buildNode_ok_inv hok with ⟨pm, hpm, hnd, hch⟩
  have hlen : nd.new_to_old.length = nd.numClasses := by
    rw [hnd]
    exact mkNodeData_new_to_old_length t wnids classes pm
  have hcntlen : nd.class_counts.length = nd.numClasses := by
    show (nd.new_to_old.map List.length).length = _
    simp [hlen]
  have hne : nd.class_counts ≠ [] := by
    intro h
    rw [h] at hcntlen
    simp at hcntlen
    omega
  cases hmin : nd.class_counts.min? with
  | none => exact absurd (List.min?_eq_none_iff.mp hmin) hne
  | some r =>
      have hmapM : nd.new_to_old.mapM (fun olds =>
          if olds.length = 0 then Except.error "ZeroDivisionError: division by zero"
          else Except.ok (min 1 ((r : ℚ) / (olds.length : ℚ)))) =
          .ok (nd.new_to_old.map (fun olds => min 1 ((r : ℚ) / (olds.length : ℚ)))) := by
        apply mapM_ok_of_forall
        intro olds holds
        rw [if_neg ?_]
        have : olds.length ∈ nd.class_counts := List.mem_map_of_mem List.length holds
        have := hpos _ this
        omega
      have hprob : nd.probabilitiesE =
          .ok (nd.new_to_old.map (fun olds => min 1 ((r : ℚ) / (olds.length : ℚ)))) := by
        unfold NodeData.probabilitiesE
        rw [hmin]
        exact hmapM
      have hilen : i < nd.new_to_old.length := by omega
      have hentry : (nd.new_to_old.map
          (fun olds => min 1 ((r : ℚ) / (olds.length : ℚ)))).getD i 0 =
          min 1 ((r : ℚ) / ((nd.new_to_old.getD i []).length : ℚ)) :=
        getD_map_lt _ _ i 0 [] hilen
      have hcnti : nd.class_counts.getD i 0 = (nd.new_to_old.getD i []).length := by
        show (nd.new_to_old.map List.length).getD i 0 = _
        exact getD_map_lt List.length _ i 0 [] hilen
      have hrmem : r ∈ nd.class_counts := (List.min?_eq_some_iff'.mp hmin).1
      have hrpos : 0 < r := hpos r hrmem
      refine ⟨r, _, rfl, hprob, ?_, ?_, ?_⟩
      · rw [hentry, hcnti]
      · intro p hp
        rcases List.mem_map.mp hp with ⟨olds, holds, hpe⟩
        have hlp : 0 < olds.length :=
          hpos _ (List.mem_map_of_mem List.length holds)
        constructor
        · rw [← hpe]
          apply lt_min one_pos
          apply div_pos
          · exact_mod_cast hrpos
          · exact_mod_cast hlp
        · rw [← hpe]
          exact min_le_left _ _
      · intro heq
        rw [hentry, ← hcnti, heq]
        rw [div_self (by exact_mod_cast Nat.pos_iff_ne_zero.mp hrpos)]
        exact min_self 1

/-- Witness for C5 at the root Node (class counts `[2, 1]`, all positive),
taking `i = 1`, the minimal-count class. -/
theorem claim_C5_witness :
    ∃ r ps, ndRoot.class_counts.min? = some r ∧ ndRoot.probabilitiesE = .ok ps ∧
      ps.getD 1 0 = min 1 ((r : ℚ) / (ndRoot.class_counts.getD 1 0 : ℚ)) ∧
      (∀ p ∈ ps, 0 < p ∧ p ≤ 1) ∧
      (ndRoot.class_counts.getD 1 0 = r → ps.getD 1 0 = 1) :=
  claim_C5_probabilities tRoot wnidsEx classesEx ndRoot rfl
    (by decide) 1 (by decide)

/-- Claim C9: a leaf wnid occurring under two children is assigned to the
last such child (`x` under children `A` and `B` of `tDup` ends in `B`'s
bucket: `mapping 0 = some 1`), leaving `A`'s bucket empty (class counts
`[0, 2]`); and on any Node with a zero class count the `probabilities`
accessor performs a division by that zero count and fails, so it is safe
only when every class count is positive. -/
theorem claim_C9_overwrite_and_zero_count_failure :
    (∃ nd, buildNode tDup wnidsDup [] = .ok nd ∧ nd.mapping 0 = some 1 ∧
      nd.new_to_old = [[], [0, 1]] ∧ nd.class_counts = [0, 2]) ∧
    (∀ nd : NodeData, 0 ∈ nd.class_counts →
      ∃ e, nd.probabilitiesE = .error e) := by
  constructor
  · exact ⟨_, rfl, by decide, by decide, by decide⟩
  · intro nd h0
    have hne : nd.class_counts ≠ [] := by
      intro h
      rw [h] at h0
      simp at h0
    cases hmin : nd.class_counts.min? with
    | none => exact absurd (List.min?_eq_none_iff.mp hmin) hne
    | some r =>
        rcases List.mem_map.mp h0 with ⟨olds, holds, hlen0⟩
        have hex : ∃ b ∈ nd.new_to_old, ∃ e,
            (fun olds : List Nat =>
              if olds.length = 0
                then Except.error "ZeroDivisionError: division by zero"
                else Except.ok (min 1 ((r : ℚ) / (olds.length : ℚ)))) b =
              .error e := by
          refine ⟨olds, holds, "ZeroDivisionError: division by zero", ?_⟩
          simp [hlen0]
        rcases mapM_error_of_exists _ nd.new_to_old hex with ⟨e, he⟩
        refine ⟨e, ?_⟩
        unfold NodeData.probabilitiesE
        rw [hmin]
        exact he

/-- Witness for C9: the Node built at `tDup` has a zero class count, and its
`probabilities` accessor indeed fails. -/
theorem claim_C9_witness :
    ∃ e, ndDup.probabilitiesE = .error e :=
  claim_C9_overwrite_and_zero_count_failure.2 ndDup (by decide)

/-- Claim C1 (divergence): on the 4-item source with labels `[0, 1, 0, 2]`
and `include_labels = {0, 1}`, `num_samples = 0`, the kept-index list is
`[0, 1, 2]` and the view's length is 3 — but accessing the view at ANY index
raises `NameError` (line 369 reads the unbound name `new_to_old` instead of
`self.new_to_old`), instead of returning the underlying sample at the `j`-th
kept index as the claim states. -/
theorem claim_C1_getitem_name_error :
    ∃ v, mkIncludeLabelsDataset Nat srcFour [0, 1] 0 = .ok v ∧
      v.new_to_old = [0, 1, 2] ∧ IncludeLabelsDataset.len Nat v = 3 ∧
      ∀ j, IncludeLabelsDataset.getitem Nat v j =
        .error "NameError: name new_to_old is not defined" :=
  ⟨_, rfl, by decide, by decide, fun j => rfl⟩

/-- Claim C8: constructing an Include-Labels view with an empty
`include_labels` selection always fails with the construction-time
assertion error, independently of the underlying source and `num_samples`. -/
theorem claim_C8_empty_selection_fails (α : Type) (src : Source α) (ns : Nat) :
    mkIncludeLabelsDataset α src [] ns =
      .error "AssertionError: No labels are included in include_labels" := rfl

/-- Claim C7: for every underlying source and exclude set, the Exclude-Labels
view is observationally equivalent (same construction outcome, same length,
same result at every index) to the Include-Labels view whose include
collection has exactly the members `{0..K-1} - exclude`. -/
theorem claim_C7_exclude_equiv_include (α : Type) (src : Source α)
    (exclude inc : List Nat) (ns : Nat)
    (hinc : ∀ x, x ∈ inc ↔ x < src.classes.length ∧ x ∉ exclude) :
    obsEquiv α (mkExcludeLabelsDataset α src exclude ns)
      (mkIncludeLabelsDataset α src inc ns) := by
  have hmemE : ∀ x,
      x ∈ (List.range src.classes.length).filter (fun i => i ∉ exclude) ↔
        x < src.classes.length ∧ x ∉ exclude := by
    intro x
    simp [List.mem_filter, List.mem_range]
  have hiff : ∀ x, x ∈ inc ↔
      x ∈ (List.range src.classes.length).filter (fun i => i ∉ exclude) :=
    fun x => (hinc x).trans (hmemE x).symm
  unfold mkExcludeLabelsDataset
  by_cases hE : (List.range src.classes.length).filter (fun i => i ∉ exclude) = []
  · have hI : inc = [] := by
      rw [List.eq_nil_iff_forall_not_mem]
      intro x hx
      exact (List.eq_nil_iff_forall_not_mem.mp hE x) ((hiff x).mp hx)
    unfold mkIncludeLabelsDataset
    rw [if_pos hE, if_pos hI]
    trivial
  · have hI : inc ≠ [] := by
      intro h
      apply hE
      rw [List.eq_nil_iff_forall_not_mem]
      intro x hx
      exact (List.eq_nil_iff_forall_not_mem.mp h x) ((hiff x).mpr hx)
    have hbuild : build_index_mapping α src
        ((List.range src.classes.length).filter (fun i => i ∉ exclude)) ns =
        build_index_mapping α src inc ns := by
      unfold build_index_mapping
      have hfil : src.data.enum.filter (fun p =>
          p.2.2 ∈ (List.range src.classes.length).filter (fun i => i ∉ exclude)) =
          src.data.enum.filter (fun p => p.2.2 ∈ inc) := by
        apply List.filter_congr
        intro p _
        exact decide_eq_decide.mpr ((hiff p.2.2).symm)
      rw [hfil]
    unfold mkIncludeLabelsDataset
    rw [if_neg hE, if_neg hI]
    refine ⟨?_, fun j => rfl⟩
    show (build_index_mapping α src _ ns).length = (build_index_mapping α src inc ns).length
    rw [hbuild]

/-- Witness for C7: excluding `{0}` on a 3-class source is equivalent to
including `{1, 2}`. -/
theorem claim_C7_witness :
    obsEquiv Nat (mkExcludeLabelsDataset Nat srcThree [0] 0)
      (mkIncludeLabelsDataset Nat srcThree [1, 2] 0) :=
  claim_C7_exclude_equiv_include Nat srcThree [0] [1, 2] 0 (by
    intro x
    constructor
    · intro hx
      rcases List.mem_cons.mp hx with h | hx
      · subst h
        refine ⟨by decide, by decide⟩
      · rcases List.mem_cons.mp hx with h | hx
        · subst h
          refine ⟨by decide, by decide⟩
        · simp at hx
    · rintro ⟨hlt, hnot⟩
      have : x ≠ 0 := by
        intro h
        exact hnot (by simp [h])
      have hlt3 : x < 3 := by simpa using hlt
      interval_cases x
      · omega
      · simp
      · simp)

theorem comma_mem_intercalate_go :
    ∀ (l : List String) (acc : String), ',' ∈ acc.data →
      ',' ∈ (String.intercalate.go acc "," l).data
  | [], acc, h => h
  | a :: as, acc, h => by
      unfold String.intercalate.go
      apply comma_mem_intercalate_go as
      rw [String.data_append, String.data_append]
      simp [h]

theorem comma_mem_intercalate (a b : String) (l : List String) :
    ',' ∈ (String.intercalate "," (a :: b :: l)).data := by
  show ',' ∈ (String.intercalate.go a "," (b :: l)).data
  unfold String.intercalate.go
  apply comma_mem_intercalate_go
  rw [String.data_append, String.data_append]
  simp

theorem intercalate_comma_singleton (a : String) :
    String.intercalate "," [a] = a := rfl

theorem mkNodeData_classes_getD (t : ETree) (wnids classes : List String)
    (pm : Nat → Option Nat) (new : Nat)
    (hnew : new < (mkNodeData t wnids classes pm).numClasses)
    (hcls : classes ≠ []) :
    (mkNodeData t wnids classes pm).classes.getD new "" =
      String.intercalate ","
        (((mkNodeData t wnids classes pm).new_to_old.getD new []).map
          (fun o => classes.getD o "")) := by
  rw [mkNodeData_classes, if_neg hcls]
  exact getD_map_lt _ _ new "" []
    (by rw [mkNodeData_new_to_old_length]; exact hnew)

theorem zero_row_eq (k : Nat) (B : List Nat) (hB : ∀ old, B ≠ [old]) :
    (List.replicate k (0 : ℚ)) =
      (List.range k).map (fun old => if B = [old] then (1 : ℚ) else 0) := by
  have : (List.range k).map (fun old => if B = [old] then (1 : ℚ) else 0) =
      (List.range k).map (fun _ => (0 : ℚ)) := by
    apply List.map_congr_left
    intro old _
    rw [if_neg (hB old)]
  rw [this, List.map_const']
  simp

theorem nodeWeightRow_spec (t : ETree) (wnids classes0 : List String)
    (pm : Nat → Option Nat) (new : Nat)
    (hK : wnids.length = classes0.length)
    (hnodup : classes0.Nodup)
    (hclean : ∀ s ∈ classes0, s ≠ "" ∧ ',' ∉ s.data)
    (hnew : new < (mkNodeData t wnids classes0 pm).numClasses) :
    nodeWeightRow (mkNodeData t wnids classes0 pm) classes0.length new =
      .ok ((List.range classes0.length).map (fun old =>
        if (mkNodeData t wnids classes0 pm).new_to_old.getD new [] = [old]
          then (1 : ℚ) else 0)) := by
  by_cases hcls0 : classes0 = []
  · subst hcls0
    have hempty : (mkNodeData t wnids [] pm).classes = [] := by
      rw [mkNodeData_classes]
      simp
    unfold nodeWeightRow
    rw [hempty]
    simp
  · have hcg := mkNodeData_classes_getD t wnids classes0 pm new hnew hcls0
    cases hBc : (mkNodeData t wnids classes0 pm).new_to_old.getD new [] with
    | nil =>
        unfold nodeWeightRow
        rw [hcg, hBc]
        simp only [List.map_nil]
        rw [if_neg (by simp [String.intercalate])]
        rw [zero_row_eq classes0.length [] (fun old => by simp)]
    | cons o0 tl =>
        cases tl with
        | nil =>
            have ho0mem : o0 ∈ (mkNodeData t wnids classes0 pm).new_to_old.getD new [] := by
              rw [hBc]
              simp
            have ho0 : o0 < wnids.length :=
              ((mkNodeData_mem_new_to_old t wnids classes0 pm new o0).mp ho0mem).2.1
            have ho0k : o0 < classes0.length := hK ▸ ho0
            have hname : classes0.getD o0 "" = classes0[o0] := by
              rw [List.getD_eq_getElem?_getD, List.getElem?_eq_getElem ho0k]
              rfl
            have hnamemem : classes0.getD o0 "" ∈ classes0 := by
              rw [hname]
              exact List.getElem_mem ho0k
            rcases hclean _ hnamemem with ⟨hne, hnc⟩
            unfold nodeWeightRow
            rw [hcg, hBc]
            simp only [List.map_cons, List.map_nil]
            simp only [intercalate_comma_singleton]
            rw [if_pos ⟨hnc, hne⟩]
            have hfind : List.findIdx? (fun s => s = classes0.getD o0 "")
                (mkNodeData t wnids classes0 pm).originalClasses = some o0 := by
              rw [mkNodeData_originalClasses]
              apply List.findIdx?_eq_some_iff_getElem.mpr
              refine ⟨ho0k, ?_, ?_⟩
              · rw [hname]
                simp
              · intro j hj
                rw [hname]
                simp only [decide_eq_true_eq, Bool.not_eq_true]
                intro heq
                have := (hnodup.getElem_inj_iff).mp heq
                omega
            rw [hfind]
            simp only [Except.ok.injEq]
            apply List.map_congr_left
            intro j _
            have : (j = o0) ↔ ([o0] = [j]) := by
              constructor
              · intro h
                rw [h]
              · intro h
                exact (List.singleton_injective h).symm
            by_cases hj : j = o0
            · rw [if_pos hj, if_pos (this.mp hj)]
            · rw [if_neg hj, if_neg (fun hc => hj (this.mpr hc))]
        | cons o1 tl2 =>
            unfold nodeWeightRow
            rw [hcg, hBc]
            simp only [List.map_cons]
            rw [if_neg (by
              intro hcond
              exact hcond.1 (comma_mem_intercalate _ _ _))]
            rw [zero_row_eq classes0.length (o0 :: o1 :: tl2) (fun old => by simp)]

theorem getNodeWeights_spec {nd : NodeData} {t : ETree}
    {wnids classes0 : List String}
    (hok : buildNode t wnids classes0 = .ok nd)
    (hK : wnids.length = classes0.length)
    (hnodup : classes0.Nodup)
    (hclean : ∀ s ∈ classes0, s ≠ "" ∧ ',' ∉ s.data) :
    getNodeWeights nd classes0.length =
      .ok ((List.range nd.numClasses).map (fun new =>
        (List.range classes0.length).map (fun old =>
          if nd.new_to_old.getD new [] = [old] then (1 : ℚ) else 0))) := by
  rcases buildNode_ok_inv hok with ⟨pm, hpm, hnd, hch⟩
  subst hnd
  exact mapM_ok_of_forall _ _ _ (fun new hnew =>
    nodeWeightRow_spec t wnids classes0 pm new hK hnodup hclean
      (List.mem_range.mp hnew))

theorem getD_range_lt {n m : Nat} (h : m < n) : (List.range n).getD m 0 = m := by
  rw [List.getD_eq_getElem?_getD, List.getElem?_range h]
  rfl

theorem flatten_getD {β : Type} (d : β) :
    ∀ (ws : List (List β)) (j r : Nat), j < ws.length →
      r < (ws.getD j []).length →
      ws.flatten.getD (((ws.take j).map List.length).sum + r) d =
        (ws.getD j []).getD r d
  | [], j, r, hj, _ => by simp at hj
  | w :: ws, 0, r, _, hr => by
      simp only [List.take_zero, List.map_nil, List.sum_nil, Nat.zero_add,
        List.flatten_cons]
      have hrw : r < w.length := by simpa using hr
      rw [List.getD_eq_getElem?_getD, List.getElem?_append_left hrw,
        ← List.getD_eq_getElem?_getD]
      simp
  | w :: ws, j + 1, r, hj, hr => by
      simp only [List.take_succ_cons, List.map_cons, List.sum_cons,
        List.flatten_cons]
      have hj' : j < ws.length := by simpa using hj
      have hr' : r < (ws.getD j []).length := by simpa using hr
      have harith : w.length + ((ws.take j).map List.length).sum + r =
          w.length + (((ws.take j).map List.length).sum + r) := by omega
      rw [harith, List.getD_eq_getElem?_getD,
        List.getElem?_append_right (by omega), Nat.add_sub_cancel_left,
        ← List.getD_eq_getElem?_getD, flatten_getD d ws j r hj' hr']
      simp

theorem dim_take_add_lt :
    ∀ (nodes : List NodeData) (j : Nat) (nd : NodeData) (new : Nat),
      nodes[j]? = some nd → new < nd.numClasses →
      NodeDim (nodes.take j) + new < NodeDim nodes
  | [], j, nd, new, hj, _ => by simp at hj
  | w :: nodes, 0, nd, new, hj, hnew => by
      simp only [List.getElem?_cons_zero, Option.some.injEq] at hj
      subst hj
      simp only [List.take_zero, NodeDim, List.map_nil, List.sum_nil,
        List.map_cons, List.sum_cons]
      omega
  | w :: nodes, j + 1, nd, new, hj, hnew => by
      simp only [List.getElem?_cons_succ] at hj
      have := dim_take_add_lt nodes j nd new hj hnew
      simp only [List.take_succ_cons, NodeDim, List.map_cons, List.sum_cons]
      simp only [NodeDim] at this
      omega

/-- Claim C6 (counterexample): on the two-node hierarchy `[I, R]` over three
flat classes, `get_weights` returns a matrix with `K = 3` rows while
`total_dimension = 5` — the transpose of the claimed
`[total_dimension x K]` shape — and the row/column for node `I`'s singleton
"other" bucket (new class 2 = `num_children`, holding exactly flat class 2)
carries a 1 instead of staying zero. -/
theorem claim_C6_counterexample :
    ∃ W, get_weights [ndInner, ndRoot] 3 = .ok W ∧
      W.length = 3 ∧ NodeDim [ndInner, ndRoot] = 5 ∧
      W.length ≠ NodeDim [ndInner, ndRoot] ∧
      (W.getD 2 []).getD 2 0 = 1 ∧
      ndInner.new_to_old.getD 2 [] = [2] ∧
      ndInner.numClasses = ndInner.numChildren + 1 :=
  ⟨wEx, rfl, by decide, by decide, by decide, by decide, by decide, by decide⟩

/-- Claim C6 (amended): `get_weights` returns the TRANSPOSE of the claimed
matrix — shape `[K x total_dimension]` — and, provided the original class
names are pairwise distinct, non-empty and comma-free, the entry at
(old-class row, node-offset + new-class column) is 1 exactly when that new
class's bucket is the singleton `[old]` (including a singleton "other"
bucket), all other entries being 0. -/
theorem claim_C6_ideal_projection_transposed (nodes : List NodeData)
    (wnids classes0 : List String)
    (hK : wnids.length = classes0.length)
    (hnodup : classes0.Nodup)
    (hclean : ∀ s ∈ classes0, s ≠ "" ∧ ',' ∉ s.data)
    (hnodes : ∀ nd ∈ nodes, ∃ t, buildNode t wnids classes0 = .ok nd) :
    ∃ W, get_weights nodes classes0.length = .ok W ∧
      W.length = classes0.length ∧
      (∀ row ∈ W, row.length = NodeDim nodes) ∧
      (∀ j nd, nodes[j]? = some nd →
        ∀ new, new < nd.numClasses → ∀ old, old < classes0.length →
          (W.getD old []).getD (NodeDim (nodes.take j) + new) 0 =
            (if nd.new_to_old.getD new [] = [old] then (1 : ℚ) else 0)) := by
  have hmapM : nodes.mapM (fun nd => getNodeWeights nd classes0.length) =
      .ok (nodes.map (fun nd => (List.range nd.numClasses).map (fun new =>
        (List.range classes0.length).map (fun old =>
          if nd.new_to_old.getD new [] = [old] then (1 : ℚ) else 0)))) := by
    apply mapM_ok_of_forall
    intro nd hnd
    rcases hnodes nd hnd with ⟨t, hok⟩
    exact getNodeWeights_spec hok hK hnodup hclean
  have hlens : (nodes.map (fun nd => (List.range nd.numClasses).map (fun new =>
      (List.range classes0.length).map (fun old =>
        if nd.new_to_old.getD new [] = [old] then (1 : ℚ) else 0)))).map
        List.length = nodes.map (fun nd => nd.numClasses) := by
    rw [List.map_map]
    apply List.map_congr_left
    intro nd _
    simp
  have hflatlen : (nodes.map (fun nd => (List.range nd.numClasses).map (fun new =>
      (List.range classes0.length).map (fun old =>
        if nd.new_to_old.getD new [] = [old] then (1 : ℚ) else 0)))).flatten.length =
      NodeDim nodes := by
    rw [List.length_flatten, hlens]
    rfl
  unfold get_weights
  rw [hmapM]
  refine ⟨_, rfl, by simp [matTranspose], ?_, ?_⟩
  · intro row hrow
    unfold matTranspose at hrow
    rcases List.mem_map.mp hrow with ⟨jj, _, hrow⟩
    rw [← hrow, List.length_map, hflatlen]
  · intro j nd hj new hnew old hold
    have hjlen : j < nodes.length := by
      cases hlt : Nat.lt_or_ge j nodes.length with
      | inl h => exact h
      | inr h =>
          rw [List.getElem?_eq_none h] at hj
          simp at hj
    have hndj : nodes.getD j nd = nd := by
      rw [List.getD_eq_getElem?_getD, hj]
      rfl
    have hgetj : (nodes.map (fun nd => (List.range nd.numClasses).map (fun new =>
        (List.range classes0.length).map (fun old =>
          if nd.new_to_old.getD new [] = [old] then (1 : ℚ) else 0)))).getD j [] =
        (List.range nd.numClasses).map (fun new =>
          (List.range classes0.length).map (fun old =>
            if nd.new_to_old.getD new [] = [old] then (1 : ℚ) else 0)) := by
      rw [getD_map_lt _ nodes j [] nd hjlen, hndj]
    have hWold : (matTranspose classes0.length
        (nodes.map (fun nd => (List.range nd.numClasses).map (fun new =>
          (List.range classes0.length).map (fun old =>
            if nd.new_to_old.getD new [] = [old] then (1 : ℚ) else 0)))).flatten).getD
          old [] =
        (nodes.map (fun nd => (List.range nd.numClasses).map (fun new =>
          (List.range classes0.length).map (fun old =>
            if nd.new_to_old.getD new [] = [old] then (1 : ℚ) else 0)))).flatten.map
          (fun r => r.getD old 0) := by
      unfold matTranspose
      rw [getD_map_lt _ _ old [] 0 (by simpa using hold), getD_range_lt hold]
    have hoff : NodeDim (nodes.take j) =
        (((nodes.map (fun nd => (List.range nd.numClasses).map (fun new =>
          (List.range classes0.length).map (fun old =>
            if nd.new_to_old.getD new [] = [old] then (1 : ℚ) else 0)))).take j).map
            List.length).sum := by
      rw [← List.map_take, List.map_map]
      unfold NodeDim
      congr 1
      apply List.map_congr_left
      intro x _
      simp
    have hidxlt : NodeDim (nodes.take j) + new <
        (nodes.map (fun nd => (List.range nd.numClasses).map (fun new =>
          (List.range classes0.length).map (fun old =>
            if nd.new_to_old.getD new [] = [old] then (1 : ℚ) else 0)))).flatten.length := by
      rw [hflatlen]
      exact dim_take_add_lt nodes j nd new hj hnew
    rw [hWold, getD_map_lt _ _ _ 0 [] hidxlt, hoff,
      flatten_getD [] _ j new (by simpa using hjlen)
        (by rw [hgetj]; simpa using hnew),
      hgetj, getD_map_lt _ _ new [] 0 (by simpa using hnew), getD_range_lt hnew,
      getD_map_lt _ _ old 0 0 (by simpa using hold), getD_range_lt hold]

/-- Witness for the amended C6 on the concrete two-node hierarchy with
distinct, non-empty, comma-free class names. -/
theorem claim_C6_witness :
    ∃ W, get_weights [ndInner, ndRoot] classesEx.length = .ok W ∧
      W.length = classesEx.length ∧
      (∀ row ∈ W, row.length = NodeDim [ndInner, ndRoot]) ∧
      (∀ j nd, [ndInner, ndRoot][j]? = some nd →
        ∀ new, new < nd.numClasses → ∀ old, old < classesEx.length →
          (W.getD old []).getD (NodeDim ([ndInner, ndRoot].take j) + new) 0 =
            (if nd.new_to_old.getD new [] = [old] then (1 : ℚ) else 0)) :=
  claim_C6_ideal_projection_transposed [ndInner, ndRoot] wnidsEx classesEx
    (by decide) (by decide) (by decide)
    (by
      intro nd hnd
      rcases List.mem_cons.mp hnd with h | hnd
      · exact ⟨tInner, by rw [h]; rfl⟩
      · rcases List.mem_cons.mp hnd with h | hnd
        · exact ⟨tRoot, by rw [h]; rfl⟩
        · simp at hnd)

/-- Claim C10: the ideal-projection row test is purely syntactic — the joined
class name must be non-empty and comma-free — so a SINGLETON class whose
original name itself contains a comma is treated as merged and its row stays
zero; `derive_ideal_projection` is correct only when no original class name
contains a comma. -/
theorem claim_C10_comma_name_zero_row (t : ETree) (wnids classes0 : List String)
    (nd : NodeData) (k new old0 : Nat)
    (hok : buildNode t wnids classes0 = .ok nd)
    (hnew : new < nd.numClasses)
    (hbucket : nd.new_to_old.getD new [] = [old0])
    (hcomma : ',' ∈ (classes0.getD old0 "").data) :
    nodeWeightRow nd k new = .ok (List.replicate k 0) := by
  rcases buildNode_ok_inv hok with ⟨pm, hpm, hnd, hch⟩
  subst hnd
  have hcls0 : classes0 ≠ [] := by
    intro h
    subst h
    simp at hcomma
  have hcg := mkNodeData_classes_getD t wnids classes0 pm new hnew hcls0
  unfold nodeWeightRow
  rw [hcg, hbucket]
  simp only [List.map_cons, List.map_nil, intercalate_comma_singleton]
  rw [if_neg (by intro hcond; exact hcond.1 hcomma)]

/-- Witness for C10: class 0's name is `x,y`; its singleton class row in the
ideal projection is zero although it corresponds to exactly one flat class. -/
theorem claim_C10_witness :
    nodeWeightRow ndComma 3 0 = .ok (List.replicate 3 0) :=
  claim_C10_comma_name_zero_row tInner wnidsEx classesComma ndComma 3 0 0
    rfl (by decide) (by decide) (by decide)

end NMN
